import Mathlib

/-!
Shallow embedding of the tile-rack demo (`src/main.rs`).

Machine `f32` arithmetic is modelled by exact rational arithmetic (`ℚ`);
the Rust cast `as usize` on a non-negative float is truncation, i.e.
`Int.floor ∘ Rat.toNat` here, and on a negative float it saturates to `0`,
which `Int.toNat` also does.  Rust `usize` subtraction `size - 1` is
modelled by truncated `Nat` subtraction; the two agree whenever
`1 ≤ size`, which holds for every rack the claims speak about.
-/

namespace TileRackDemo

def TILE_WIDTH : ℚ := 50
def TILE_HEIGHT : ℚ := 50
def TILE_SPACING : ℚ := 10
def ANIMATION_STEPS : Int := 100

/-- `struct Tile` from `src/main.rs` (the `blend_mode` render field is
rendering state with no bearing on rack logic and is omitted). -/
structure Tile where
  x : ℚ
  y : ℚ
  letter : Char
  dragging : Bool
  relative_x_click : Option ℚ
  relative_y_click : Option ℚ
  animation_progress : Int
  x_animation_step : Option ℚ
  y_animation_step : Option ℚ
deriving Repr, DecidableEq

/-- `Tile::new`. -/
def Tile.new (x y : ℚ) (letter : Char) : Tile :=
  { x := x, y := y, letter := letter, dragging := false,
    relative_x_click := none, relative_y_click := none,
    animation_progress := 0, x_animation_step := none, y_animation_step := none }

/-- `Tile::set_pos`. -/
def Tile.set_pos (t : Tile) (x y : ℚ) : Tile :=
  { t with x := x, y := y }

/-- `ggez::graphics::Rect::contains` on the rect `(rx, ry, w, h)` and the
point `(px, py)`: inclusive containment on all four edges. -/
def rect_contains (rx ry w h px py : ℚ) : Prop :=
  px ≥ rx ∧ px ≤ rx + w ∧ py ≤ ry + h ∧ py ≥ ry

instance (rx ry w h px py : ℚ) : Decidable (rect_contains rx ry w h px py) := by
  unfold rect_contains; infer_instance

/-- `struct TileRack` (again without the render-only `blend_mode`). -/
structure TileRack where
  x : ℚ
  y : ℚ
  tiles : List Tile
  size : Nat
deriving Repr, DecidableEq

/-- `TileRack::new`: one tile per letter, laid out left to right. -/
def TileRack.new (x y : ℚ) (letters : List Char) : TileRack :=
  { x := x, y := y,
    tiles := letters.enum.map
      (fun p => Tile.new (x + (p.1 : ℚ) * (TILE_WIDTH + TILE_SPACING)) y p.2),
    size := letters.length }

/-- `TileRack::get_dragging_tile`: first `(index, tile)` with `tile.dragging`. -/
def TileRack.get_dragging_tile (r : TileRack) : Option (Nat × Tile) :=
  r.tiles.enum.find? (fun p => p.2.dragging)

/-- `TileRack::get_new_tile_index`. -/
def TileRack.get_new_tile_index (r : TileRack) (x : ℚ) : Nat :=
  let tile_position : ℚ := (x - r.x + TILE_WIDTH / 2) / (TILE_WIDTH + TILE_SPACING)
  if tile_position < 0 then 0
  else if tile_position > ((r.size - 1 : Nat) : ℚ) then r.size - 1
  else tile_position.floor.toNat

/-- The vector `new_tile_x_positions` computed at the top of
`TileRack::update` (lines 155-170 of `src/main.rs`). -/
def TileRack.new_tile_x_positions (r : TileRack) : List ℚ :=
  let maybe_dragging_index_x := r.get_dragging_tile
  (List.range r.size).map (fun (index : Nat) =>
    let tile_x := r.x + (index : ℚ) * (TILE_WIDTH + TILE_SPACING)
    match maybe_dragging_index_x with
    | some (dragging_initial_index, dragging_tile) =>
      let new_index := r.get_new_tile_index dragging_tile.x
      if new_index ≤ index ∧ index ≤ dragging_initial_index then
        tile_x + (TILE_WIDTH + TILE_SPACING)
      else if dragging_initial_index ≤ index ∧ index ≤ new_index then
        tile_x - (TILE_WIDTH + TILE_SPACING)
      else
        tile_x
    | none => tile_x)

/-- The body of the `for (tile, new_x)` loop of `TileRack::update`
(lines 172-203): one animation tick of a single tile toward the target
`(new_x, new_y)` where `new_y` is the rack's `y`. -/
def animate_tile (new_y new_x : ℚ) (tile : Tile) : Tile :=
  if tile.dragging then tile else
  if ANIMATION_STEPS ≠ 0 then
    if (tile.x = new_x ∧ tile.y = new_y) ∨ tile.animation_progress ≥ ANIMATION_STEPS then
      Tile.set_pos
        { tile with x_animation_step := none, y_animation_step := none,
                    animation_progress := 0 }
        new_x new_y
    else
      let x_animation_step := tile.x_animation_step.getD ((new_x - tile.x) / (ANIMATION_STEPS : ℚ))
      let y_animation_step := tile.y_animation_step.getD ((new_y - tile.y) / (ANIMATION_STEPS : ℚ))
      Tile.set_pos
        { tile with x_animation_step := some x_animation_step,
                    y_animation_step := some y_animation_step,
                    animation_progress := tile.animation_progress + 1 }
        (tile.x + x_animation_step) (tile.y + y_animation_step)
  else
    Tile.set_pos tile new_x new_y

/-- `TileRack::update`: Rust zips `tiles.iter_mut()` with the positions
vector, so tiles beyond the positions vector (impossible when
`size = tiles.length`) are left untouched. -/
def TileRack.update (r : TileRack) : TileRack :=
  let new_tile_x_positions := r.new_tile_x_positions
  { r with tiles := r.tiles.mapIdx (fun i tile =>
      match new_tile_x_positions.get? i with
      | some new_x => animate_tile r.y new_x tile
      | none => tile) }

/-- The three assignments `mouse_button_down_event` performs on the tile it
hits: mark it dragging and record the pointer-to-tile offset. -/
def grab_tile (x y : ℚ) (tile : Tile) : Tile :=
  { tile with dragging := true,
              relative_x_click := some (x - tile.x),
              relative_y_click := some (y - tile.y) }

/-- `State::mouse_button_down_event` for a left click at `(x, y)`.
The Rust code indexes `tiles[tile_position]`; `List.get?` with the
`none` branch returning the state unchanged models the (guarded,
unreachable for constructed racks) out-of-bounds access totally. -/
def mouse_button_down_event (r : TileRack) (x y : ℚ) : TileRack :=
  let tile_position : Nat := ((x - r.x) / (TILE_WIDTH + TILE_SPACING)).floor.toNat
  if tile_position ≤ r.size - 1 then
    match r.tiles.get? tile_position with
    | some tile =>
      if rect_contains tile.x tile.y TILE_WIDTH TILE_HEIGHT x y then
        { r with tiles := r.tiles.set tile_position (grab_tile x y tile) }
      else r
    | none => r
  else r

/-- `State::mouse_motion_event`: every dragging tile follows the pointer
minus its recorded grab offset.  The Rust `unwrap` panics when the offset
is `none`; that (unreachable) case is modelled as leaving the tile as is. -/
def mouse_motion_event (r : TileRack) (x y : ℚ) : TileRack :=
  { r with tiles := r.tiles.map (fun tile =>
      if tile.dragging then
        match tile.relative_x_click, tile.relative_y_click with
        | some rx, some ry => Tile.set_pos tile (x - rx) (y - ry)
        | _, _ => tile
      else tile) }

/-- `State::mouse_button_up_event` for a left release: clear `dragging` on
the first dragging tile, then move it from its slot to
`get_new_tile_index(tile.x)`.  The returned pair `(old_index, new_index)`
is the pair the handler computes internally (the spec's
`end_drag() -> Option<(old_index, new_index)>`). -/
def mouse_button_up_event (r : TileRack) : TileRack × Option (Nat × Nat) :=
  match r.get_dragging_tile with
  | none => (r, none)
  | some (index, dragging_tile) =>
    let tiles1 := r.tiles.set index { dragging_tile with dragging := false }
    let new_index := r.get_new_tile_index dragging_tile.x
    match tiles1.get? index with
    | some tile_deref =>
      ({ r with tiles := (tiles1.eraseIdx index).insertIdx new_index tile_deref },
       some (index, new_index))
    | none => ({ r with tiles := tiles1 }, none)

/-- The rack operations a pointer-event sequence can perform: `down` is
`begin_drag` (via `mouse_button_down_event`), `motion` is `drag_to`,
`up` is `end_drag`, `tick` is one `TileRack::update` call. -/
inductive Op where
  | down (x y : ℚ)
  | motion (x y : ℚ)
  | up
  | tick
deriving Repr, DecidableEq

def applyOp (r : TileRack) : Op → TileRack
  | Op.down x y => mouse_button_down_event r x y
  | Op.motion x y => mouse_motion_event r x y
  | Op.up => (mouse_button_up_event r).1
  | Op.tick => r.update

def applyOps (r : TileRack) (ops : List Op) : TileRack :=
  ops.foldl applyOp r

/-- Modelled from the spec (§4.2): truncation toward zero, the `round`
of `index = round((x - origin.x + tile_width/2) / (tile_width + spacing))`
"by integer division semantics". -/
def ratTruncTowardZero (q : ℚ) : Int :=
  if q < 0 then -(⌊-q⌋) else ⌊q⌋

/-- Modelled from the spec (§4.2): the `round` value "then clamps to the
valid range" `[0, size-1]`. -/
def spec_target_index (r : TileRack) (x : ℚ) : Nat :=
  (min ((r.size : Int) - 1)
    (max 0 (ratTruncTowardZero
      ((x - r.x + TILE_WIDTH / 2) / (TILE_WIDTH + TILE_SPACING))))).toNat

/-- Modelled from the spec (§3, §8): slot `i` rests at
`origin.x + i * (tile_width + spacing)`, so its center sits half a tile
width further right. -/
def spec_slot_center (r : TileRack) (i : Nat) : ℚ :=
  r.x + (i : ℚ) * (TILE_WIDTH + TILE_SPACING) + TILE_WIDTH / 2

/-- The tile `'A'` of the two-letter rack at the origin, as it looks right
after being grabbed at `(10, 10)`. -/
def grabbedA : Tile :=
  { x := 0, y := 0, letter := 'A', dragging := true,
    relative_x_click := some 10, relative_y_click := some 10,
    animation_progress := 0, x_animation_step := none, y_animation_step := none }

/-- A concrete mid-drag rack used to witness drag-time theorems: tile `'A'`
(slot 0) is being dragged and currently sits at `(5, 7)`; tile `'B'` rests
in slot 1. -/
def midDragRack : TileRack :=
  { x := 0, y := 0, size := 2,
    tiles := [{ x := 5, y := 7, letter := 'A', dragging := true,
                relative_x_click := some 5, relative_y_click := some 3,
                animation_progress := 0, x_animation_step := none,
                y_animation_step := none },
              Tile.new 60 0 'B'] }

/-! ### Arithmetic of `get_new_tile_index` -/

lemma rat_floor_eq_int_floor (q : ℚ) : q.floor = ⌊q⌋ := by
  rw [Rat.floor_def', Rat.floor_def]

lemma tile_pitch_pos : (0 : ℚ) < TILE_WIDTH + TILE_SPACING := by
  norm_num [TILE_WIDTH, TILE_SPACING]

lemma get_new_tile_index_le (r : TileRack) (x : ℚ) :
    r.get_new_tile_index x ≤ r.size - 1 := by
  simp only [TileRack.get_new_tile_index]
  by_cases h1 : (x - r.x + TILE_WIDTH / 2) / (TILE_WIDTH + TILE_SPACING) < 0
  · rw [if_pos h1]
    exact Nat.zero_le _
  · rw [if_neg h1]
    by_cases h2 : (x - r.x + TILE_WIDTH / 2) / (TILE_WIDTH + TILE_SPACING) >
        ((r.size - 1 : Nat) : ℚ)
    · rw [if_pos h2]
    · rw [if_neg h2]
      rw [Int.toNat_le]
      calc ⌊(x - r.x + TILE_WIDTH / 2) / (TILE_WIDTH + TILE_SPACING)⌋
          ≤ ⌊((r.size - 1 : Nat) : ℚ)⌋ := Int.floor_le_floor (not_lt.mp h2)
        _ = ((r.size - 1 : Nat) : Int) := Int.floor_natCast _

lemma get_new_tile_index_mono (r : TileRack) {x1 x2 : ℚ} (hx : x1 ≤ x2) :
    r.get_new_tile_index x1 ≤ r.get_new_tile_index x2 := by
  have hq : (x1 - r.x + TILE_WIDTH / 2) / (TILE_WIDTH + TILE_SPACING) ≤
      (x2 - r.x + TILE_WIDTH / 2) / (TILE_WIDTH + TILE_SPACING) := by
    apply div_le_div_of_nonneg_right ?_ tile_pitch_pos.le
    linarith
  simp only [TileRack.get_new_tile_index]
  by_cases h1 : (x1 - r.x + TILE_WIDTH / 2) / (TILE_WIDTH + TILE_SPACING) < 0
  · rw [if_pos h1]
    exact Nat.zero_le _
  · have h1' : ¬ (x2 - r.x + TILE_WIDTH / 2) / (TILE_WIDTH + TILE_SPACING) < 0 :=
      fun h => h1 (lt_of_le_of_lt hq h)
    rw [if_neg h1, if_neg h1']
    by_cases h2 : (x1 - r.x + TILE_WIDTH / 2) / (TILE_WIDTH + TILE_SPACING) >
        ((r.size - 1 : Nat) : ℚ)
    · have h2' : (x2 - r.x + TILE_WIDTH / 2) / (TILE_WIDTH + TILE_SPACING) >
          ((r.size - 1 : Nat) : ℚ) := lt_of_lt_of_le h2 hq
      rw [if_pos h2, if_pos h2']
    · rw [if_neg h2]
      by_cases h3 : (x2 - r.x + TILE_WIDTH / 2) / (TILE_WIDTH + TILE_SPACING) >
          ((r.size - 1 : Nat) : ℚ)
      · rw [if_pos h3, Int.toNat_le]
        calc ⌊(x1 - r.x + TILE_WIDTH / 2) / (TILE_WIDTH + TILE_SPACING)⌋
            ≤ ⌊((r.size - 1 : Nat) : ℚ)⌋ := Int.floor_le_floor (not_lt.mp h2)
          _ = ((r.size - 1 : Nat) : Int) := Int.floor_natCast _
      · rw [if_neg h3]
        exact Int.toNat_le_toNat (Int.floor_le_floor hq)

/-- **C8.** `target_index_for_x` (= `TileRack::get_new_tile_index`) is
monotonic non-decreasing in `x`, and every result lies in `[0, size-1]`
(the lower bound is automatic in `ℕ`). -/
theorem target_index_monotone_range (r : TileRack) (x1 x2 : ℚ)
    (_hsize : 1 ≤ r.size) (hx : x1 ≤ x2) :
    r.get_new_tile_index x1 ≤ r.get_new_tile_index x2 ∧
      r.get_new_tile_index x1 ≤ r.size - 1 ∧
      r.get_new_tile_index x2 ≤ r.size - 1 :=
  ⟨get_new_tile_index_mono r hx, get_new_tile_index_le r x1,
    get_new_tile_index_le r x2⟩

/-- Witness for `target_index_monotone_range`: the two-letter rack at the
origin, probed at `x = 5` and `x = 77`. -/
theorem target_index_monotone_range_witness :
    1 ≤ (TileRack.new 0 0 ['A', 'B']).size ∧ ((5 : ℚ) ≤ 77) ∧
      ((TileRack.new 0 0 ['A', 'B']).get_new_tile_index 5 ≤
          (TileRack.new 0 0 ['A', 'B']).get_new_tile_index 77 ∧
        (TileRack.new 0 0 ['A', 'B']).get_new_tile_index 5 ≤
          (TileRack.new 0 0 ['A', 'B']).size - 1 ∧
        (TileRack.new 0 0 ['A', 'B']).get_new_tile_index 77 ≤
          (TileRack.new 0 0 ['A', 'B']).size - 1) :=
  ⟨by decide, by norm_num,
    target_index_monotone_range (TileRack.new 0 0 ['A', 'B']) 5 77 (by decide) (by norm_num)⟩

/-- **C2, counterexample.** The input point `x = 40` on the two-tile rack at
the origin is strictly closer to slot 0's center (25) than to slot 1's
center (85), yet `get_new_tile_index` assigns it slot 1: the claim's
"assigned to the slot whose center it is closest to" fails. -/
theorem target_index_not_nearest_center :
    (TileRack.new 0 0 ['A', 'B']).get_new_tile_index 40 = 1 ∧
      |(40 : ℚ) - spec_slot_center (TileRack.new 0 0 ['A', 'B']) 0| <
        |(40 : ℚ) - spec_slot_center (TileRack.new 0 0 ['A', 'B']) 1| := by
  constructor
  · norm_num [TileRack.new, TileRack.get_new_tile_index, TILE_WIDTH, TILE_SPACING,
      Int.floor_eq_iff]
  · rw [show (40 : ℚ) - spec_slot_center (TileRack.new 0 0 ['A', 'B']) 0 = 15 by
        norm_num [spec_slot_center, TileRack.new, TILE_WIDTH, TILE_SPACING],
      show (40 : ℚ) - spec_slot_center (TileRack.new 0 0 ['A', 'B']) 1 = -45 by
        norm_num [spec_slot_center, TileRack.new, TILE_WIDTH, TILE_SPACING]]
    rw [abs_of_pos (by norm_num), abs_of_neg (by norm_num)]
    norm_num

/-- **C2, amended.** `get_new_tile_index` returns the truncation toward zero
of `(x - origin.x + tile_width/2) / (tile_width + spacing)` clamped into
`[0, size-1]` (the spec's formula), dropping the false "nearest slot
center" gloss. -/
theorem target_index_eq_trunc_clamp (r : TileRack) (x : ℚ) (hsize : 1 ≤ r.size) :
    r.get_new_tile_index x = spec_target_index r x := by
  simp only [TileRack.get_new_tile_index, spec_target_index]
  have hsz : (1 : Int) ≤ (r.size : Int) := by exact_mod_cast hsize
  have hcast : ((r.size - 1 : Nat) : ℚ) = (((r.size : Int) - 1 : Int) : ℚ) := by
    push_cast [hsize]
    ring
  by_cases h1 : (x - r.x + TILE_WIDTH / 2) / (TILE_WIDTH + TILE_SPACING) < 0
  · rw [if_pos h1]
    have htz : ratTruncTowardZero
        ((x - r.x + TILE_WIDTH / 2) / (TILE_WIDTH + TILE_SPACING)) =
        -(⌊-((x - r.x + TILE_WIDTH / 2) / (TILE_WIDTH + TILE_SPACING))⌋) := by
      unfold ratTruncTowardZero
      rw [if_pos h1]
    rw [htz]
    have h0 : (0 : Int) ≤ ⌊-((x - r.x + TILE_WIDTH / 2) / (TILE_WIDTH + TILE_SPACING))⌋ :=
      Int.floor_nonneg.mpr (by linarith)
    rw [max_eq_left (by omega : -(⌊-((x - r.x + TILE_WIDTH / 2) / (TILE_WIDTH + TILE_SPACING))⌋) ≤ (0 : Int)),
      min_eq_right (by omega : (0 : Int) ≤ (r.size : Int) - 1)]
    rfl
  · have htz : ratTruncTowardZero
        ((x - r.x + TILE_WIDTH / 2) / (TILE_WIDTH + TILE_SPACING)) =
        ⌊(x - r.x + TILE_WIDTH / 2) / (TILE_WIDTH + TILE_SPACING)⌋ := by
      unfold ratTruncTowardZero
      rw [if_neg h1]
    have hfl0 : (0 : Int) ≤ ⌊(x - r.x + TILE_WIDTH / 2) / (TILE_WIDTH + TILE_SPACING)⌋ :=
      Int.floor_nonneg.mpr (not_lt.mp h1)
    rw [if_neg h1, htz]
    by_cases h2 : (x - r.x + TILE_WIDTH / 2) / (TILE_WIDTH + TILE_SPACING) >
        ((r.size - 1 : Nat) : ℚ)
    · rw [if_pos h2]
      have hge : (r.size : Int) - 1 ≤ ⌊(x - r.x + TILE_WIDTH / 2) / (TILE_WIDTH + TILE_SPACING)⌋ := by
        rw [Int.le_floor]
        calc (((r.size : Int) - 1 : Int) : ℚ) = ((r.size - 1 : Nat) : ℚ) := hcast.symm
          _ ≤ (x - r.x + TILE_WIDTH / 2) / (TILE_WIDTH + TILE_SPACING) := le_of_lt h2
      omega
    · rw [if_neg h2]
      have hle : ⌊(x - r.x + TILE_WIDTH / 2) / (TILE_WIDTH + TILE_SPACING)⌋ ≤
          (r.size : Int) - 1 := by
        calc ⌊(x - r.x + TILE_WIDTH / 2) / (TILE_WIDTH + TILE_SPACING)⌋
            ≤ ⌊((r.size - 1 : Nat) : ℚ)⌋ := Int.floor_le_floor (not_lt.mp h2)
          _ = ((r.size - 1 : Nat) : Int) := Int.floor_natCast _
          _ = (r.size : Int) - 1 := by omega
      rw [max_eq_right hfl0, min_eq_right hle]
      rfl

/-- Witness for `target_index_eq_trunc_clamp` at the two-letter rack and
`x = 40`. -/
theorem target_index_eq_trunc_clamp_witness :
    1 ≤ (TileRack.new 0 0 ['A', 'B']).size ∧
      (TileRack.new 0 0 ['A', 'B']).get_new_tile_index 40 =
        spec_target_index (TileRack.new 0 0 ['A', 'B']) 40 :=
  ⟨by decide, target_index_eq_trunc_clamp (TileRack.new 0 0 ['A', 'B']) 40 (by decide)⟩

/-! ### Locating the dragging tile -/

lemma find_enumFrom_eq_some : ∀ (l : List Tile) (n di : Nat) (dt : Tile),
    (List.enumFrom n l).find? (fun q => q.2.dragging) = some (di, dt) →
    n ≤ di ∧ l.get? (di - n) = some dt ∧ dt.dragging = true := by
  intro l
  induction l with
  | nil => intro n di dt h; simp [List.enumFrom] at h
  | cons t ts ih =>
    intro n di dt h
    rw [List.enumFrom_cons] at h
    by_cases hd : t.dragging
    · rw [List.find?_cons_of_pos _ (by simpa using hd)] at h
      simp only [Option.some.injEq, Prod.mk.injEq] at h
      obtain ⟨rfl, rfl⟩ := h
      exact ⟨le_refl _, by simp, hd⟩
    · rw [List.find?_cons_of_neg _ (by simpa using hd)] at h
      obtain ⟨hle, hget, hdrag⟩ := ih (n + 1) di dt h
      refine ⟨by omega, ?_, hdrag⟩
      have hs : di - n = (di - (n + 1)) + 1 := by omega
      rw [hs]
      simpa using hget

lemma find_enumFrom_of_first : ∀ (l : List Tile) (n i : Nat) (dt : Tile),
    l.get? i = some dt → dt.dragging = true →
    (∀ j u, j < i → l.get? j = some u → u.dragging = false) →
    (List.enumFrom n l).find? (fun q => q.2.dragging) = some (n + i, dt) := by
  intro l
  induction l with
  | nil => intro n i dt h; simp at h
  | cons t ts ih =>
    intro n i dt hget hdrag hfirst
    cases i with
    | zero =>
      simp only [List.get?_cons_zero, Option.some.injEq] at hget
      subst hget
      rw [List.enumFrom_cons, List.find?_cons_of_pos _ (by simpa using hdrag)]
      simp
    | succ i' =>
      have ht : t.dragging = false := hfirst 0 t (Nat.succ_pos _) (by simp)
      rw [List.enumFrom_cons, List.find?_cons_of_neg _ (by simp [ht])]
      have hrec := ih (n + 1) i' dt (by simpa using hget) hdrag
        (fun j u hj hg => hfirst (j + 1) u (by omega) (by simpa using hg))
      rw [hrec]
      have : n + 1 + i' = n + (i' + 1) := by omega
      rw [this]

lemma get_dragging_tile_eq_some {r : TileRack} {di : Nat} {dt : Tile}
    (h : r.get_dragging_tile = some (di, dt)) :
    r.tiles.get? di = some dt ∧ dt.dragging = true := by
  have h' : (List.enumFrom 0 r.tiles).find? (fun q => q.2.dragging) = some (di, dt) := by
    simpa [TileRack.get_dragging_tile, List.enum] using h
  obtain ⟨-, hget, hdrag⟩ := find_enumFrom_eq_some r.tiles 0 di dt h'
  exact ⟨by simpa using hget, hdrag⟩

lemma get_dragging_tile_of_first {r : TileRack} {i : Nat} {dt : Tile}
    (hget : r.tiles.get? i = some dt) (hdrag : dt.dragging = true)
    (hfirst : ∀ j u, j < i → r.tiles.get? j = some u → u.dragging = false) :
    r.get_dragging_tile = some (i, dt) := by
  have h := find_enumFrom_of_first r.tiles 0 i dt hget hdrag hfirst
  simpa [TileRack.get_dragging_tile, List.enum] using h

/-! ### C1: the displaced target positions during a drag -/

/-- **C1.** While a drag is in progress, the per-tick update computes, for
every slot `i` holding a non-dragging tile, a displaced nominal x-position:
the nominal resting x `origin.x + i * (tile_width + spacing)` shifted right
by one slot pitch when `new_index ≤ i ≤ old_index`, shifted left by one
slot pitch when `old_index ≤ i ≤ new_index`, and unshifted otherwise,
where `new_index = get_new_tile_index (dragging tile's x)` and `old_index`
is the dragging tile's current slot index. -/
theorem update_displaces_tiles (r : TileRack) (di i : Nat) (dx : ℚ) (ti : Tile)
    (hd : r.get_dragging_tile.map (fun p => (p.1, p.2.x)) = some (di, dx))
    (hi : r.tiles.get? i = some ti) (hnd : ti.dragging = false)
    (hsize : i < r.size) :
    (r.get_new_tile_index dx ≤ i ∧ i ≤ di →
      r.new_tile_x_positions.get? i =
        some (r.x + (i : ℚ) * (TILE_WIDTH + TILE_SPACING) + (TILE_WIDTH + TILE_SPACING))) ∧
    (di ≤ i ∧ i ≤ r.get_new_tile_index dx →
      r.new_tile_x_positions.get? i =
        some (r.x + (i : ℚ) * (TILE_WIDTH + TILE_SPACING) - (TILE_WIDTH + TILE_SPACING))) ∧
    (¬(r.get_new_tile_index dx ≤ i ∧ i ≤ di) →
      ¬(di ≤ i ∧ i ≤ r.get_new_tile_index dx) →
      r.new_tile_x_positions.get? i =
        some (r.x + (i : ℚ) * (TILE_WIDTH + TILE_SPACING))) := by
  obtain ⟨dt, hdt, hdx⟩ : ∃ dt : Tile, r.get_dragging_tile = some (di, dt) ∧ dt.x = dx := by
    cases hdt : r.get_dragging_tile with
    | none => rw [hdt] at hd; exact absurd hd (by simp)
    | some p =>
      obtain ⟨j, dt⟩ := p
      rw [hdt] at hd
      simp only [Option.map_some', Option.some.injEq, Prod.mk.injEq] at hd
      obtain ⟨rfl, rfl⟩ := hd
      exact ⟨dt, rfl, rfl⟩
  obtain ⟨hgetdi, hdrag⟩ := get_dragging_tile_eq_some hdt
  have hne : i ≠ di := by
    intro heq
    rw [heq, hgetdi, Option.some.injEq] at hi
    rw [hi, hnd] at hdrag
    exact Bool.false_ne_true hdrag
  have hpos : r.new_tile_x_positions.get? i =
      some (if r.get_new_tile_index dx ≤ i ∧ i ≤ di then
              r.x + (i : ℚ) * (TILE_WIDTH + TILE_SPACING) + (TILE_WIDTH + TILE_SPACING)
            else if di ≤ i ∧ i ≤ r.get_new_tile_index dx then
              r.x + (i : ℚ) * (TILE_WIDTH + TILE_SPACING) - (TILE_WIDTH + TILE_SPACING)
            else r.x + (i : ℚ) * (TILE_WIDTH + TILE_SPACING)) := by
    simp only [TileRack.new_tile_x_positions, hdt, hdx]
    rw [List.get?_map, List.get?_range hsize]
    rfl
  refine ⟨?_, ?_, ?_⟩
  · intro hc
    rw [hpos, if_pos hc]
  · intro hc
    have hnc : ¬(r.get_new_tile_index dx ≤ i ∧ i ≤ di) := by
      intro hc'
      exact hne (le_antisymm hc'.2 hc.1)
    rw [hpos, if_neg hnc, if_pos hc]
  · intro hc1 hc2
    rw [hpos, if_neg hc1, if_neg hc2]

/-- Witness for `update_displaces_tiles`: the mid-drag two-tile rack,
examined at the resting slot `i = 1` while slot 0's tile is dragged. -/
theorem update_displaces_tiles_witness :
    midDragRack.get_dragging_tile.map (fun p => (p.1, p.2.x)) = some (0, 5) ∧
    midDragRack.tiles.get? 1 = some (Tile.new 60 0 'B') ∧
    (Tile.new 60 0 'B').dragging = false ∧
    1 < midDragRack.size ∧
    ((midDragRack.get_new_tile_index 5 ≤ 1 ∧ 1 ≤ 0 →
        midDragRack.new_tile_x_positions.get? 1 =
          some (midDragRack.x + (1 : ℚ) * (TILE_WIDTH + TILE_SPACING) +
            (TILE_WIDTH + TILE_SPACING))) ∧
      (0 ≤ 1 ∧ 1 ≤ midDragRack.get_new_tile_index 5 →
        midDragRack.new_tile_x_positions.get? 1 =
          some (midDragRack.x + (1 : ℚ) * (TILE_WIDTH + TILE_SPACING) -
            (TILE_WIDTH + TILE_SPACING))) ∧
      (¬(midDragRack.get_new_tile_index 5 ≤ 1 ∧ 1 ≤ 0) →
        ¬(0 ≤ 1 ∧ 1 ≤ midDragRack.get_new_tile_index 5) →
        midDragRack.new_tile_x_positions.get? 1 =
          some (midDragRack.x + (1 : ℚ) * (TILE_WIDTH + TILE_SPACING)))) :=
  ⟨by decide, by decide, rfl, by decide,
    update_displaces_tiles midDragRack 0 1 5 (Tile.new 60 0 'B')
      (by decide) (by decide) rfl (by decide)⟩

/-! ### List plumbing for the reorder on release -/

lemma insertIdx_eraseIdx_self {α : Type} : ∀ (l : List α) (i : Nat) (a : α),
    l.get? i = some a → (l.eraseIdx i).insertIdx i a = l := by
  intro l
  induction l with
  | nil => intro i a h; simp at h
  | cons t ts ih =>
    intro i a h
    cases i with
    | zero =>
      simp only [List.get?_cons_zero, Option.some.injEq] at h
      subst h
      rfl
    | succ i' =>
      simp only [List.get?_cons_succ] at h
      show t :: (ts.eraseIdx i').insertIdx i' a = t :: ts
      rw [ih i' a h]

lemma perm_cons_eraseIdx_self {α : Type} : ∀ (l : List α) (i : Nat) (a : α),
    l.get? i = some a → (a :: l.eraseIdx i).Perm l := by
  intro l
  induction l with
  | nil => intro i a h; simp at h
  | cons t ts ih =>
    intro i a h
    cases i with
    | zero =>
      simp only [List.get?_cons_zero, Option.some.injEq] at h
      subst h
      rfl
    | succ i' =>
      simp only [List.get?_cons_succ] at h
      show (a :: t :: ts.eraseIdx i').Perm (t :: ts)
      exact (List.Perm.swap t a _).trans ((ih i' a h).cons t)

lemma set_get?_self {α : Type} : ∀ (l : List α) (n : Nat) (a : α),
    l.get? n = some a → l.set n a = l := by
  intro l
  induction l with
  | nil => intro n a h; simp at h
  | cons t ts ih =>
    intro n a h
    cases n with
    | zero =>
      simp only [List.get?_cons_zero, Option.some.injEq] at h
      subst h
      rfl
    | succ n' =>
      simp only [List.get?_cons_succ] at h
      show t :: ts.set n' a = t :: ts
      rw [ih n' a h]

/-! ### Per-operation preservation lemmas -/

lemma animate_tile_letter (ny nx : ℚ) (t : Tile) :
    (animate_tile ny nx t).letter = t.letter := by
  unfold animate_tile Tile.set_pos
  split_ifs <;> rfl

lemma animate_tile_dragging (ny nx : ℚ) (t : Tile) :
    (animate_tile ny nx t).dragging = t.dragging := by
  unfold animate_tile Tile.set_pos
  split_ifs <;> rfl

lemma animate_tile_rel (ny nx : ℚ) (t : Tile) :
    (animate_tile ny nx t).relative_x_click = t.relative_x_click ∧
      (animate_tile ny nx t).relative_y_click = t.relative_y_click := by
  unfold animate_tile Tile.set_pos
  split_ifs <;> exact ⟨rfl, rfl⟩

lemma applyOp_size (r : TileRack) (op : Op) : (applyOp r op).size = r.size := by
  cases op with
  | down x y =>
    show (mouse_button_down_event r x y).size = r.size
    simp only [mouse_button_down_event]
    split
    · split
      · split <;> rfl
      · rfl
    · rfl
  | motion x y => rfl
  | up =>
    show (mouse_button_up_event r).1.size = r.size
    simp only [mouse_button_up_event]
    split
    · rfl
    · split <;> rfl
  | tick => rfl

lemma mouse_button_down_length (r : TileRack) (x y : ℚ) :
    (mouse_button_down_event r x y).tiles.length = r.tiles.length := by
  simp only [mouse_button_down_event]
  split
  · split
    · split
      · simp [List.length_set]
      · rfl
    · rfl
  · rfl

lemma set_then_get? {α : Type} (l : List α) (n : Nat) (a : α) (h : n < l.length) :
    (l.set n a).get? n = some a := by
  rw [List.get?_set_eq]
  rw [(List.get?_eq_some.mpr ⟨h, rfl⟩ : l.get? n = some (l.get ⟨n, h⟩))]
  rfl

lemma mouse_button_up_reduce (r : TileRack) {di : Nat} {dt : Tile}
    (hdt : r.get_dragging_tile = some (di, dt)) (hdi : di < r.tiles.length) :
    (mouse_button_up_event r).1.tiles =
        ((r.tiles.set di { dt with dragging := false }).eraseIdx di).insertIdx
          (r.get_new_tile_index dt.x) { dt with dragging := false } ∧
      (mouse_button_up_event r).2 = some (di, r.get_new_tile_index dt.x) := by
  have hget1 : (r.tiles.set di { dt with dragging := false }).get? di =
      some { dt with dragging := false } :=
    set_then_get? r.tiles di _ hdi
  constructor <;>
    simp only [mouse_button_up_event, hdt, hget1]

lemma mouse_button_up_length (r : TileRack) (h : r.tiles.length = r.size) :
    (mouse_button_up_event r).1.tiles.length = r.tiles.length := by
  cases hdt : r.get_dragging_tile with
  | none =>
    simp only [mouse_button_up_event, hdt]
  | some p =>
    obtain ⟨di, dt⟩ := p
    obtain ⟨hget, hdrag⟩ := get_dragging_tile_eq_some hdt
    obtain ⟨hdi, -⟩ := List.get?_eq_some.mp hget
    rw [(mouse_button_up_reduce r hdt hdi).1]
    have hlen_erase : ((r.tiles.set di { dt with dragging := false }).eraseIdx di).length =
        r.tiles.length - 1 := by
      rw [List.length_eraseIdx, List.length_set, if_pos hdi]
    have hni : r.get_new_tile_index dt.x ≤ r.size - 1 := get_new_tile_index_le r dt.x
    have hcond : r.get_new_tile_index dt.x ≤
        ((r.tiles.set di { dt with dragging := false }).eraseIdx di).length := by
      rw [hlen_erase]
      omega
    rw [List.length_insertIdx _ _ hcond, hlen_erase]
    omega

lemma applyOp_length (r : TileRack) (op : Op) (h : r.tiles.length = r.size) :
    (applyOp r op).tiles.length = r.tiles.length := by
  cases op with
  | down x y => exact mouse_button_down_length r x y
  | motion x y => simp [applyOp, mouse_motion_event]
  | up => exact mouse_button_up_length r h
  | tick => simp [applyOp, TileRack.update, List.length_mapIdx]

/-! ### Letters are only permuted -/

lemma mouse_button_down_letters (r : TileRack) (x y : ℚ) :
    (mouse_button_down_event r x y).tiles.map Tile.letter = r.tiles.map Tile.letter := by
  simp only [mouse_button_down_event]
  split
  · cases hget : r.tiles.get? (((x - r.x) / (TILE_WIDTH + TILE_SPACING)).floor.toNat) with
    | none => rfl
    | some tile =>
      dsimp only
      split
      · show (r.tiles.set _ _).map Tile.letter = r.tiles.map Tile.letter
        rw [List.map_set]
        exact set_get?_self _ _ _ (by rw [List.get?_map, hget]; rfl)
      · rfl
  · rfl

lemma mouse_motion_letters (r : TileRack) (x y : ℚ) :
    (mouse_motion_event r x y).tiles.map Tile.letter = r.tiles.map Tile.letter := by
  unfold mouse_motion_event
  show (r.tiles.map _).map Tile.letter = r.tiles.map Tile.letter
  rw [List.map_map]
  apply List.map_congr_left
  intro t _
  simp only [Function.comp]
  split
  · split
    · rfl
    · rfl
  · rfl

lemma update_letters (r : TileRack) :
    r.update.tiles.map Tile.letter = r.tiles.map Tile.letter := by
  unfold TileRack.update
  show (r.tiles.mapIdx _).map Tile.letter = r.tiles.map Tile.letter
  rw [List.mapIdx_eq_enum_map, List.map_map]
  conv_rhs => rw [← List.enum_map_snd r.tiles, List.map_map]
  apply List.map_congr_left
  intro p _
  simp only [Function.comp, Function.uncurry]
  cases r.new_tile_x_positions.get? p.1 with
  | none => rfl
  | some nx => exact animate_tile_letter _ _ _

lemma mouse_button_up_letters (r : TileRack) (h : r.tiles.length = r.size) :
    ((mouse_button_up_event r).1.tiles.map Tile.letter).Perm (r.tiles.map Tile.letter) := by
  cases hdt : r.get_dragging_tile with
  | none =>
    simp only [mouse_button_up_event, hdt]
    exact List.Perm.refl _
  | some p =>
    obtain ⟨di, dt⟩ := p
    obtain ⟨hget, hdrag⟩ := get_dragging_tile_eq_some hdt
    obtain ⟨hdi, -⟩ := List.get?_eq_some.mp hget
    rw [(mouse_button_up_reduce r hdt hdi).1]
    have hlen_erase : ((r.tiles.set di { dt with dragging := false }).eraseIdx di).length =
        r.tiles.length - 1 := by
      rw [List.length_eraseIdx, List.length_set, if_pos hdi]
    have hni : r.get_new_tile_index dt.x ≤ r.size - 1 := get_new_tile_index_le r dt.x
    have hcond : r.get_new_tile_index dt.x ≤
        ((r.tiles.set di { dt with dragging := false }).eraseIdx di).length := by
      rw [hlen_erase]
      omega
    have hget1 : (r.tiles.set di { dt with dragging := false }).get? di =
        some { dt with dragging := false } :=
      set_then_get? r.tiles di _ hdi
    have hstep1 := (List.perm_insertIdx ({ dt with dragging := false } : Tile)
      ((r.tiles.set di { dt with dragging := false }).eraseIdx di) hcond).map Tile.letter
    have hstep2 := (perm_cons_eraseIdx_self _ di _ hget1).map Tile.letter
    have hstep3 : (r.tiles.set di { dt with dragging := false }).map Tile.letter =
        r.tiles.map Tile.letter := by
      rw [List.map_set]
      exact set_get?_self _ _ _ (by rw [List.get?_map, hget]; rfl)
    exact (hstep1.trans hstep2).trans (hstep3 ▸ List.Perm.refl _)

lemma applyOp_letters (r : TileRack) (op : Op) (h : r.tiles.length = r.size) :
    ((applyOp r op).tiles.map Tile.letter).Perm (r.tiles.map Tile.letter) := by
  cases op with
  | down x y => rw [show applyOp r (Op.down x y) = mouse_button_down_event r x y from rfl,
      mouse_button_down_letters r x y]
  | motion x y => rw [show (applyOp r (Op.motion x y)) = mouse_motion_event r x y from rfl,
      mouse_motion_letters r x y]
  | up => exact mouse_button_up_letters r h
  | tick => rw [show (applyOp r Op.tick) = r.update from rfl, update_letters r]

lemma applyOps_invariant (ops : List Op) : ∀ r : TileRack, r.tiles.length = r.size →
    (applyOps r ops).tiles.length = r.size ∧ (applyOps r ops).size = r.size ∧
      ((applyOps r ops).tiles.map Tile.letter).Perm (r.tiles.map Tile.letter) := by
  induction ops with
  | nil => intro r h; exact ⟨h, rfl, List.Perm.refl _⟩
  | cons op ops ih =>
    intro r h
    have h1 : (applyOp r op).tiles.length = r.tiles.length := applyOp_length r op h
    have h2 : (applyOp r op).size = r.size := applyOp_size r op
    have h3 := applyOp_letters r op h
    obtain ⟨ha, hb, hc⟩ := ih (applyOp r op) (by rw [h1, h2, h])
    refine ⟨?_, ?_, ?_⟩
    · show (applyOps (applyOp r op) ops).tiles.length = r.size
      rw [ha, h2]
    · show (applyOps (applyOp r op) ops).size = r.size
      rw [hb, h2]
    · exact hc.trans h3

lemma new_rack_length (x y : ℚ) (letters : List Char) :
    (TileRack.new x y letters).tiles.length = (TileRack.new x y letters).size := by
  simp [TileRack.new, List.enum_length]

lemma new_rack_letters (x y : ℚ) (letters : List Char) :
    (TileRack.new x y letters).tiles.map Tile.letter = letters := by
  unfold TileRack.new
  show (letters.enum.map _).map Tile.letter = letters
  rw [List.map_map]
  conv_rhs => rw [← List.enum_map_snd letters]
  apply List.map_congr_left
  intro p _
  rfl

/-- **C4.** For every constructed rack and every sequence of pointer events
(`begin_drag`/`drag_to`/`end_drag`, plus animation ticks) the tile list's
length stays equal to `size`, and the letters are only ever permuted:
no operation inserts or deletes tiles. -/
theorem length_invariant (x y : ℚ) (letters : List Char) (ops : List Op) :
    (applyOps (TileRack.new x y letters) ops).tiles.length =
        (TileRack.new x y letters).size ∧
      ((applyOps (TileRack.new x y letters) ops).tiles.map Tile.letter).Perm letters := by
  obtain ⟨h1, -, h3⟩ :=
    applyOps_invariant ops (TileRack.new x y letters) (new_rack_length x y letters)
  exact ⟨h1, by rw [new_rack_letters x y letters] at h3; exact h3⟩

/-! ### C3: the concrete reorder scenario -/

/-- **C3.** On the rack `"AEINRST"` (any origin), pressing at
`(origin.x + 190, origin.y + 10)` grabs slot 3 (`'N'`), dragging to
`(origin.x + 20, origin.y + 10)` and releasing yields
`(old_index, new_index) = (3, 0)` and the letters `"NAEIRST"`. -/
theorem scenario_aeinrst_reorder (ox oy : ℚ) :
    (mouse_button_up_event (mouse_motion_event
        (mouse_button_down_event (TileRack.new ox oy ['A', 'E', 'I', 'N', 'R', 'S', 'T'])
          (ox + 190) (oy + 10))
        (ox + 20) (oy + 10))).2 = some (3, 0) ∧
    (mouse_button_up_event (mouse_motion_event
        (mouse_button_down_event (TileRack.new ox oy ['A', 'E', 'I', 'N', 'R', 'S', 'T'])
          (ox + 190) (oy + 10))
        (ox + 20) (oy + 10))).1.tiles.map Tile.letter =
      ['N', 'A', 'E', 'I', 'R', 'S', 'T'] := by
  norm_num [TileRack.new, Tile.new, mouse_button_down_event, mouse_motion_event,
    mouse_button_up_event, grab_tile, TileRack.get_dragging_tile, TileRack.get_new_tile_index,
    Tile.set_pos, rect_contains, List.enum_cons, List.enumFrom_cons,
    TILE_WIDTH, TILE_HEIGHT, TILE_SPACING,
    rat_floor_eq_int_floor, Int.floor_eq_iff, show Int.toNat 3 = 3 from rfl,
    show Int.toNat 0 = 0 from rfl, add_assoc, add_le_add_iff_left]
  norm_num [show ∀ z : ℚ, (z + 20 - 10 - z + 25) / 60 = 7 / 12 from fun z => by ring,
    Int.floor_eq_iff, show Int.toNat 0 = 0 from rfl]

/-! ### C5: dragging tiles always carry a grab offset -/

lemma mouse_button_down_offset_inv (r : TileRack) (x y : ℚ)
    (hinv : ∀ t ∈ r.tiles, t.dragging = true →
      t.relative_x_click.isSome = true ∧ t.relative_y_click.isSome = true) :
    ∀ t ∈ (mouse_button_down_event r x y).tiles, t.dragging = true →
      t.relative_x_click.isSome = true ∧ t.relative_y_click.isSome = true := by
  simp only [mouse_button_down_event]
  split
  · cases hget : r.tiles.get? (((x - r.x) / (TILE_WIDTH + TILE_SPACING)).floor.toNat) with
    | none => exact hinv
    | some tile =>
      dsimp only
      split
      · intro t ht _
        rcases List.mem_or_eq_of_mem_set ht with hmem | rfl
        · exact hinv t hmem (by assumption)
        · exact ⟨rfl, rfl⟩
      · exact hinv
  · exact hinv

lemma mouse_motion_offset_inv (r : TileRack) (x y : ℚ)
    (hinv : ∀ t ∈ r.tiles, t.dragging = true →
      t.relative_x_click.isSome = true ∧ t.relative_y_click.isSome = true) :
    ∀ t ∈ (mouse_motion_event r x y).tiles, t.dragging = true →
      t.relative_x_click.isSome = true ∧ t.relative_y_click.isSome = true := by
  intro t ht
  simp only [mouse_motion_event] at ht
  obtain ⟨u, hu, rfl⟩ := List.exists_of_mem_map ht
  split
  · split
    · intro _
      have hrel := hinv u hu (by assumption)
      simpa [Tile.set_pos] using hrel
    · exact hinv u hu
  · exact hinv u hu

lemma update_offset_inv (r : TileRack)
    (hinv : ∀ t ∈ r.tiles, t.dragging = true →
      t.relative_x_click.isSome = true ∧ t.relative_y_click.isSome = true) :
    ∀ t ∈ r.update.tiles, t.dragging = true →
      t.relative_x_click.isSome = true ∧ t.relative_y_click.isSome = true := by
  intro t ht
  simp only [TileRack.update, List.mapIdx_eq_enum_map] at ht
  obtain ⟨p, hp, rfl⟩ := List.exists_of_mem_map ht
  have humem : p.2 ∈ r.tiles := by
    rw [← List.enum_map_snd r.tiles]
    exact List.mem_map_of_mem Prod.snd hp
  simp only [Function.uncurry]
  cases hpos : r.new_tile_x_positions.get? p.1 with
  | none => exact hinv p.2 humem
  | some nx =>
    intro hd
    rw [animate_tile_dragging] at hd
    have hrel := animate_tile_rel r.y nx p.2
    rw [hrel.1, hrel.2]
    exact hinv p.2 humem hd

lemma mouse_button_up_offset_inv (r : TileRack) (h : r.tiles.length = r.size)
    (hinv : ∀ t ∈ r.tiles, t.dragging = true →
      t.relative_x_click.isSome = true ∧ t.relative_y_click.isSome = true) :
    ∀ t ∈ (mouse_button_up_event r).1.tiles, t.dragging = true →
      t.relative_x_click.isSome = true ∧ t.relative_y_click.isSome = true := by
  cases hdt : r.get_dragging_tile with
  | none =>
    simp only [mouse_button_up_event, hdt]
    exact hinv
  | some p =>
    obtain ⟨di, dt⟩ := p
    obtain ⟨hget, hdrag⟩ := get_dragging_tile_eq_some hdt
    obtain ⟨hdi, -⟩ := List.get?_eq_some.mp hget
    intro t ht
    rw [(mouse_button_up_reduce r hdt hdi).1] at ht
    have hlen_erase : ((r.tiles.set di { dt with dragging := false }).eraseIdx di).length =
        r.tiles.length - 1 := by
      rw [List.length_eraseIdx, List.length_set, if_pos hdi]
    have hni : r.get_new_tile_index dt.x ≤ r.size - 1 := get_new_tile_index_le r dt.x
    have hcond : r.get_new_tile_index dt.x ≤
        ((r.tiles.set di { dt with dragging := false }).eraseIdx di).length := by
      rw [hlen_erase]
      omega
    rcases (List.mem_insertIdx hcond).mp ht with rfl | hmem
    · intro hd
      exact absurd hd (by simp)
    · have hmem2 := List.mem_of_mem_eraseIdx hmem
      rcases List.mem_or_eq_of_mem_set hmem2 with hmem3 | rfl
      · exact hinv t hmem3
      · intro hd
        exact absurd hd (by simp)

lemma applyOps_offset_inv (ops : List Op) : ∀ r : TileRack, r.tiles.length = r.size →
    (∀ t ∈ r.tiles, t.dragging = true →
      t.relative_x_click.isSome = true ∧ t.relative_y_click.isSome = true) →
    ∀ t ∈ (applyOps r ops).tiles, t.dragging = true →
      t.relative_x_click.isSome = true ∧ t.relative_y_click.isSome = true := by
  induction ops with
  | nil => exact fun r _ hinv => hinv
  | cons op ops ih =>
    intro r h hinv
    have hwf : (applyOp r op).tiles.length = (applyOp r op).size := by
      rw [applyOp_length r op h, applyOp_size r op, h]
    refine ih (applyOp r op) hwf ?_
    cases op with
    | down x y => exact mouse_button_down_offset_inv r x y hinv
    | motion x y => exact mouse_motion_offset_inv r x y hinv
    | up => exact mouse_button_up_offset_inv r h hinv
    | tick => exact update_offset_inv r hinv

/-- **C5, counterexample.** Press on tile `'A'` of the rack `"AB"` at the
origin, then release: the released tile has `dragging = false` but its grab
offset is still `some 10` — `mouse_button_up_event` never resets
`relative_x_click`/`relative_y_click`, so "grab offset is `Some` iff
`dragging`" is not preserved and the offset is *not* `None` again. -/
theorem grab_offset_some_after_release :
    ((applyOps (TileRack.new 0 0 ['A', 'B']) [Op.down 10 10, Op.up]).tiles.map
        (fun t => (t.dragging, t.relative_x_click, t.relative_y_click))).get? 0 =
      some (false, some 10, some 10) := by
  norm_num [applyOps, applyOp, TileRack.new, Tile.new, mouse_button_down_event,
    mouse_button_up_event, grab_tile, TileRack.get_dragging_tile, TileRack.get_new_tile_index,
    rect_contains, List.enum_cons, List.enumFrom_cons, TILE_WIDTH, TILE_HEIGHT, TILE_SPACING,
    rat_floor_eq_int_floor, Int.floor_eq_iff]

/-- **C5, amended.** Every operation preserves the one-sided invariant:
a tile whose `dragging` flag is true has a `some` grab offset.  (The
converse direction fails: after `end_drag` clears the dragging flag the
released tile keeps its last grab offset instead of returning to `none`;
it is only overwritten at the next press.) -/
theorem dragging_implies_grab_offset_some (x y : ℚ) (letters : List Char)
    (ops : List Op) (t : Tile)
    (ht : t ∈ (applyOps (TileRack.new x y letters) ops).tiles)
    (hd : t.dragging = true) :
    t.relative_x_click.isSome = true ∧ t.relative_y_click.isSome = true := by
  refine applyOps_offset_inv ops (TileRack.new x y letters)
    (new_rack_length x y letters) ?_ t ht hd
  intro u hu hud
  simp only [TileRack.new] at hu
  obtain ⟨p, hp, rfl⟩ := List.exists_of_mem_map hu
  exact absurd hud (by simp [Tile.new])

/-- Witness for `dragging_implies_grab_offset_some`: after pressing on tile
`'A'` of the rack `"AB"`, the grabbed tile is dragging and both grab-offset
components are `some`. -/
theorem dragging_implies_grab_offset_some_witness :
    grabbedA ∈ (applyOps (TileRack.new 0 0 ['A', 'B']) [Op.down 10 10]).tiles ∧
    grabbedA.dragging = true ∧
    (grabbedA.relative_x_click.isSome = true ∧ grabbedA.relative_y_click.isSome = true) := by
  have hmem : grabbedA ∈ (applyOps (TileRack.new 0 0 ['A', 'B']) [Op.down 10 10]).tiles := by
    norm_num [applyOps, applyOp, TileRack.new, Tile.new, grabbedA, mouse_button_down_event,
      grab_tile, rect_contains, List.enum_cons, List.enumFrom_cons, TILE_WIDTH, TILE_HEIGHT,
      TILE_SPACING, rat_floor_eq_int_floor, Int.floor_eq_iff]
  exact ⟨hmem, rfl,
    dragging_implies_grab_offset_some 0 0 ['A', 'B'] [Op.down 10 10] _ hmem rfl⟩

/-! ### C6 and C7: the missing guards, evaluated on the code -/

/-- **C6 (the code at the failing input).** With tile 0 of the rack `"AB"`
already dragging, a second left press over tile 1 is *not* rejected:
`mouse_button_down_event` has no "drag already in progress" guard and marks
tile 1 dragging as well, so two tiles are dragging at once. -/
theorem double_begin_drag_two_dragging :
    (applyOps (TileRack.new 0 0 ['A', 'B']) [Op.down 10 10, Op.down 70 10]).tiles.map
      Tile.dragging = [true, true] := by
  norm_num [applyOps, applyOp, TileRack.new, Tile.new, mouse_button_down_event,
    grab_tile, rect_contains, List.enum_cons, List.enumFrom_cons,
    TILE_WIDTH, TILE_HEIGHT, TILE_SPACING, rat_floor_eq_int_floor, Int.floor_eq_iff,
    show Int.toNat 0 = 0 from rfl, show Int.toNat 1 = 1 from rfl]

/-- **C7 (the code at the failing input).** `TileRack::new` accepts the
empty letter sequence without any error and returns a rack with `size = 0`
and no tiles — the construction is not rejected, so `size - 1` (used by
`get_new_tile_index`'s clamp) underflows its `usize` range on this rack. -/
theorem new_empty_rack_size_zero :
    (TileRack.new 0 0 ([] : List Char)).size = 0 ∧
      (TileRack.new 0 0 ([] : List Char)).tiles = [] := by
  decide

/-! ### C9: press then release without motion is a no-op reorder -/

lemma new_tiles_get? (x y : ℚ) (letters : List Char) (j : Nat) :
    (TileRack.new x y letters).tiles.get? j =
      (letters.get? j).map
        (fun c => Tile.new (x + (j : ℚ) * (TILE_WIDTH + TILE_SPACING)) y c) := by
  simp only [TileRack.new]
  rw [List.get?_map, List.get?_enum]
  cases letters.get? j <;> rfl

lemma floor_toNat_eq_of_bounds {q : ℚ} {i : Nat} (h1 : (i : ℚ) ≤ q)
    (h2 : q < (i : ℚ) + 1) : q.floor.toNat = i := by
  rw [rat_floor_eq_int_floor]
  have hfl : ⌊q⌋ = (i : Int) := by
    rw [Int.floor_eq_iff]
    constructor
    · exact_mod_cast h1
    · exact_mod_cast h2
  rw [hfl]
  exact Int.toNat_natCast i

lemma mouse_button_down_reduce (r : TileRack) (x y : ℚ) {i : Nat} {tile : Tile}
    (htp : ((x - r.x) / (TILE_WIDTH + TILE_SPACING)).floor.toNat = i)
    (hguard : i ≤ r.size - 1)
    (hget : r.tiles.get? i = some tile)
    (hcont : rect_contains tile.x tile.y TILE_WIDTH TILE_HEIGHT x y) :
    mouse_button_down_event r x y =
      { r with tiles := r.tiles.set i (grab_tile x y tile) } := by
  simp only [mouse_button_down_event, htp, hget]
  rw [if_pos hguard, if_pos hcont]

lemma get_new_tile_index_resting (r : TileRack) (i : Nat) (_hsz : 1 ≤ r.size)
    (hi : i ≤ r.size - 1) :
    r.get_new_tile_index (r.x + (i : ℚ) * (TILE_WIDTH + TILE_SPACING)) = i := by
  simp only [TileRack.get_new_tile_index]
  have hq : (r.x + (i : ℚ) * (TILE_WIDTH + TILE_SPACING) - r.x + TILE_WIDTH / 2) /
      (TILE_WIDTH + TILE_SPACING) = (i : ℚ) + 5 / 12 := by
    rw [show r.x + (i : ℚ) * (TILE_WIDTH + TILE_SPACING) - r.x + TILE_WIDTH / 2 =
        (i : ℚ) * (TILE_WIDTH + TILE_SPACING) + TILE_WIDTH / 2 by ring]
    norm_num [TILE_WIDTH, TILE_SPACING]
    ring
  rw [hq]
  have hipos : (0 : ℚ) ≤ (i : ℚ) := Nat.cast_nonneg i
  rw [if_neg (by linarith)]
  by_cases h2 : (i : ℚ) + 5 / 12 > ((r.size - 1 : Nat) : ℚ)
  · rw [if_pos h2]
    have hlt : ((r.size - 1 : Nat) : ℚ) < (i : ℚ) + 1 := by linarith
    have : r.size - 1 < i + 1 := by exact_mod_cast hlt
    omega
  · rw [if_neg h2]
    apply floor_toNat_eq_of_bounds
    · linarith
    · linarith

/-- **C9.** Pressing anywhere inside tile `i`'s rectangle on a freshly
constructed rack and releasing without any motion yields
`(old_index, new_index) = (i, i)` and leaves the letter sequence
unchanged: dropping without moving returns the tile to its slot. -/
theorem begin_end_drag_roundtrip (x y px py : ℚ) (letters : List Char) (i : Nat)
    (hi : i < letters.length)
    (hpx1 : x + (i : ℚ) * (TILE_WIDTH + TILE_SPACING) ≤ px)
    (hpx2 : px ≤ x + (i : ℚ) * (TILE_WIDTH + TILE_SPACING) + TILE_WIDTH)
    (hpy1 : y ≤ py) (hpy2 : py ≤ y + TILE_HEIGHT) :
    (mouse_button_up_event
        (mouse_button_down_event (TileRack.new x y letters) px py)).2 = some (i, i) ∧
      (mouse_button_up_event
          (mouse_button_down_event (TileRack.new x y letters) px py)).1.tiles.map
        Tile.letter = letters := by
  have hpitch : (0 : ℚ) < TILE_WIDTH + TILE_SPACING := tile_pitch_pos
  have hc : letters.get? i = some (letters.get ⟨i, hi⟩) := List.get?_eq_some.mpr ⟨hi, rfl⟩
  have hgeti : (TileRack.new x y letters).tiles.get? i =
      some (Tile.new (x + (i : ℚ) * (TILE_WIDTH + TILE_SPACING)) y (letters.get ⟨i, hi⟩)) := by
    rw [new_tiles_get?, hc]
    rfl
  have htp : ((px - (TileRack.new x y letters).x) / (TILE_WIDTH + TILE_SPACING)).floor.toNat
      = i := by
    apply floor_toNat_eq_of_bounds
    · rw [le_div_iff hpitch]
      show (i : ℚ) * (TILE_WIDTH + TILE_SPACING) ≤ px - x
      linarith
    · rw [div_lt_iff hpitch]
      show px - x < ((i : ℚ) + 1) * (TILE_WIDTH + TILE_SPACING)
      have hW : TILE_WIDTH < TILE_WIDTH + TILE_SPACING := by
        norm_num [TILE_WIDTH, TILE_SPACING]
      have hexp : ((i : ℚ) + 1) * (TILE_WIDTH + TILE_SPACING) =
          (i : ℚ) * (TILE_WIDTH + TILE_SPACING) + (TILE_WIDTH + TILE_SPACING) := by ring
      linarith [hexp]
  have hguard : i ≤ (TileRack.new x y letters).size - 1 := by
    show i ≤ letters.length - 1
    omega
  have hcont : rect_contains
      (Tile.new (x + (i : ℚ) * (TILE_WIDTH + TILE_SPACING)) y (letters.get ⟨i, hi⟩)).x
      (Tile.new (x + (i : ℚ) * (TILE_WIDTH + TILE_SPACING)) y (letters.get ⟨i, hi⟩)).y
      TILE_WIDTH TILE_HEIGHT px py :=
    ⟨hpx1, hpx2, hpy2, hpy1⟩
  have hdown := mouse_button_down_reduce (TileRack.new x y letters) px py htp hguard
    hgeti hcont
  rw [hdown]
  have hlen : (TileRack.new x y letters).tiles.length = letters.length := by
    have := new_rack_length x y letters
    exact this
  have hilen : i < ({ TileRack.new x y letters with
      tiles := (TileRack.new x y letters).tiles.set i
        (grab_tile px py (Tile.new (x + (i : ℚ) * (TILE_WIDTH + TILE_SPACING)) y
          (letters.get ⟨i, hi⟩))) } : TileRack).tiles.length := by
    show i < ((TileRack.new x y letters).tiles.set i _).length
    rw [List.length_set, hlen]
    exact hi
  have hget1 : (((TileRack.new x y letters).tiles.set i
      (grab_tile px py (Tile.new (x + (i : ℚ) * (TILE_WIDTH + TILE_SPACING)) y
        (letters.get ⟨i, hi⟩)))).get? i) =
      some (grab_tile px py (Tile.new (x + (i : ℚ) * (TILE_WIDTH + TILE_SPACING)) y
        (letters.get ⟨i, hi⟩))) := by
    apply set_then_get?
    rw [hlen]
    exact hi
  have hfirst : ∀ j u, j < i →
      (((TileRack.new x y letters).tiles.set i
        (grab_tile px py (Tile.new (x + (i : ℚ) * (TILE_WIDTH + TILE_SPACING)) y
          (letters.get ⟨i, hi⟩)))).get? j) = some u → u.dragging = false := by
    intro j u hj hg
    rw [List.get?_set_ne _ _ (by omega : i ≠ j), new_tiles_get?] at hg
    cases hjc : letters.get? j with
    | none => rw [hjc] at hg; exact absurd hg (by simp)
    | some cj =>
      rw [hjc] at hg
      simp only [Option.map_some', Option.some.injEq] at hg
      rw [← hg]
      rfl
  have hdt : ({ TileRack.new x y letters with
      tiles := (TileRack.new x y letters).tiles.set i
        (grab_tile px py (Tile.new (x + (i : ℚ) * (TILE_WIDTH + TILE_SPACING)) y
          (letters.get ⟨i, hi⟩))) } : TileRack).get_dragging_tile =
      some (i, grab_tile px py (Tile.new (x + (i : ℚ) * (TILE_WIDTH + TILE_SPACING)) y
        (letters.get ⟨i, hi⟩))) :=
    get_dragging_tile_of_first hget1 rfl hfirst
  obtain ⟨hup1, hup2⟩ := mouse_button_up_reduce _ hdt hilen
  have hni : ({ TileRack.new x y letters with
      tiles := (TileRack.new x y letters).tiles.set i
        (grab_tile px py (Tile.new (x + (i : ℚ) * (TILE_WIDTH + TILE_SPACING)) y
          (letters.get ⟨i, hi⟩))) } : TileRack).get_new_tile_index
      (grab_tile px py (Tile.new (x + (i : ℚ) * (TILE_WIDTH + TILE_SPACING)) y
        (letters.get ⟨i, hi⟩))).x = i := by
    exact get_new_tile_index_resting _ i (by show 1 ≤ letters.length; omega)
      (by show i ≤ letters.length - 1; omega)
  constructor
  · rw [hup2, hni]
  · rw [hup1, hni]
    have hsetget := set_then_get?
      (((TileRack.new x y letters).tiles.set i
        (grab_tile px py (Tile.new (x + (i : ℚ) * (TILE_WIDTH + TILE_SPACING)) y
          (letters.get ⟨i, hi⟩))))) i
      ({ grab_tile px py (Tile.new (x + (i : ℚ) * (TILE_WIDTH + TILE_SPACING)) y
        (letters.get ⟨i, hi⟩)) with dragging := false })
      (by rw [List.length_set, hlen]; exact hi)
    rw [insertIdx_eraseIdx_self _ i _ hsetget]
    rw [List.set_set, List.map_set, new_rack_letters]
    apply set_get?_self
    rw [hc]
    rfl

/-- Witness for `begin_end_drag_roundtrip`: the rack `"AB"` at the origin,
pressed at `(65, 10)` inside tile 1. -/
theorem begin_end_drag_roundtrip_witness :
    (1 < (['A', 'B'] : List Char).length ∧
      (0 : ℚ) + (1 : ℚ) * (TILE_WIDTH + TILE_SPACING) ≤ 65 ∧
      (65 : ℚ) ≤ 0 + (1 : ℚ) * (TILE_WIDTH + TILE_SPACING) + TILE_WIDTH ∧
      (0 : ℚ) ≤ 10 ∧ (10 : ℚ) ≤ 0 + TILE_HEIGHT) ∧
    (mouse_button_up_event
        (mouse_button_down_event (TileRack.new 0 0 ['A', 'B']) 65 10)).2 = some (1, 1) ∧
      (mouse_button_up_event
          (mouse_button_down_event (TileRack.new 0 0 ['A', 'B']) 65 10)).1.tiles.map
        Tile.letter = ['A', 'B'] :=
  ⟨⟨by norm_num, by norm_num [TILE_WIDTH, TILE_SPACING],
      by norm_num [TILE_WIDTH, TILE_SPACING], by norm_num, by norm_num [TILE_HEIGHT]⟩,
    begin_end_drag_roundtrip 0 0 65 10 ['A', 'B'] 1 (by norm_num)
      (by norm_num [TILE_WIDTH, TILE_SPACING]) (by norm_num [TILE_WIDTH, TILE_SPACING])
      (by norm_num) (by norm_num [TILE_HEIGHT])⟩

/-! ### C10: the 100-step animation lands exactly on the target -/

lemma linear_step_hits_target_only_at_end {a b : ℚ} {k : ℚ} (hk : k ≠ 100)
    (h : a + k * ((b - a) / 100) = b) : a = b := by
  have h2 : (b - a) * (100 - k) = 0 := by linear_combination (-100 : ℚ) * h
  rcases mul_eq_zero.mp h2 with h3 | h3
  · linarith
  · exact absurd (by linarith : k = (100 : ℚ)) hk

lemma animation_invariant (tx ty : ℚ) (tl : Char) (orx ory : Option ℚ) (nx ny : ℚ)
    (hne : ¬(tx = nx ∧ ty = ny)) :
    ∀ k : Nat, 1 ≤ k → k ≤ 100 →
      (fun u => animate_tile ny nx u)^[k] (Tile.mk tx ty tl false orx ory 0 none none) =
        Tile.mk (tx + (k : ℚ) * ((nx - tx) / 100)) (ty + (k : ℚ) * ((ny - ty) / 100))
          tl false orx ory (k : Int) (some ((nx - tx) / 100)) (some ((ny - ty) / 100)) := by
  intro k
  induction k with
  | zero => omega
  | succ k ih =>
    intro _ h100
    rcases Nat.lt_or_ge k 1 with hk0 | hk1
    · have hk : k = 0 := by omega
      subst hk
      rw [Function.iterate_one]
      have hcond : ¬(((Tile.mk tx ty tl false orx ory 0 none none).x = nx ∧
          (Tile.mk tx ty tl false orx ory 0 none none).y = ny) ∨
          (Tile.mk tx ty tl false orx ory 0 none none).animation_progress ≥
            ANIMATION_STEPS) := by
        rintro (h | h)
        · exact hne h
        · norm_num [ANIMATION_STEPS] at h
      simp only [animate_tile]
      rw [if_neg (by simp), if_pos (by norm_num [ANIMATION_STEPS]), if_neg hcond]
      simp [Tile.set_pos, ANIMATION_STEPS, Tile.mk.injEq]
    · rw [Function.iterate_succ_apply', ih hk1 (by omega)]
      have hk99 : k ≤ 99 := by omega
      have hcond : ¬(((Tile.mk (tx + (k : ℚ) * ((nx - tx) / 100))
          (ty + (k : ℚ) * ((ny - ty) / 100)) tl false orx ory (k : Int)
          (some ((nx - tx) / 100)) (some ((ny - ty) / 100))).x = nx ∧
          (Tile.mk (tx + (k : ℚ) * ((nx - tx) / 100))
            (ty + (k : ℚ) * ((ny - ty) / 100)) tl false orx ory (k : Int)
            (some ((nx - tx) / 100)) (some ((ny - ty) / 100))).y = ny) ∨
          (Tile.mk (tx + (k : ℚ) * ((nx - tx) / 100))
            (ty + (k : ℚ) * ((ny - ty) / 100)) tl false orx ory (k : Int)
            (some ((nx - tx) / 100)) (some ((ny - ty) / 100))).animation_progress ≥
            ANIMATION_STEPS) := by
        rintro (⟨hex, hey⟩ | h)
        · have hkne : (k : ℚ) ≠ 100 := by
            intro hk
            have : k = 100 := by exact_mod_cast hk
            omega
          exact hne ⟨linear_step_hits_target_only_at_end hkne hex,
            linear_step_hits_target_only_at_end hkne hey⟩
        · have hk100 : (100 : Int) ≤ (k : Int) := by simpa [ANIMATION_STEPS] using h
          omega
      simp only [animate_tile]
      rw [if_neg (by simp), if_pos (by norm_num [ANIMATION_STEPS]), if_neg hcond]
      simp [Tile.set_pos, ANIMATION_STEPS, Tile.mk.injEq]
      constructor <;> ring

/-- **C10.** With `ANIMATION_STEPS = 100`, a non-dragging tile with fresh
animation state (`animation_progress = 0`, no recorded step vector) that is
repeatedly ticked toward a fixed target `(new_x, new_y)` sits exactly on
that target after exactly 100 ticks, in exact rational arithmetic: the step
vector `(target - start) / 100` is fixed at the first tick and advances the
position linearly until `animation_progress` reaches 100. -/
theorem animation_reaches_target (t : Tile) (nx ny : ℚ)
    (hd : t.dragging = false) (hp : t.animation_progress = 0)
    (hx : t.x_animation_step = none) (hy : t.y_animation_step = none) :
    ANIMATION_STEPS = 100 ∧
      ((fun u => animate_tile ny nx u)^[100] t).x = nx ∧
      ((fun u => animate_tile ny nx u)^[100] t).y = ny := by
  obtain ⟨tx, ty, tl, td, orx, ory, tap, txs, tys⟩ := t
  dsimp only at hd hp hx hy
  subst hd hp hx hy
  by_cases hne : tx = nx ∧ ty = ny
  · have hfix : animate_tile ny nx (Tile.mk tx ty tl false orx ory 0 none none) =
        Tile.mk tx ty tl false orx ory 0 none none := by
      simp only [animate_tile]
      rw [if_neg (by simp), if_pos (by norm_num [ANIMATION_STEPS]),
        if_pos (Or.inl ⟨hne.1, hne.2⟩)]
      simp [Tile.set_pos, Tile.mk.injEq, hne.1, hne.2]
    rw [Function.iterate_fixed hfix 100]
    exact ⟨rfl, hne.1, hne.2⟩
  · rw [animation_invariant tx ty tl orx ory nx ny hne 100 (by norm_num) (le_refl _)]
    refine ⟨rfl, ?_, ?_⟩
    · show tx + ((100 : Nat) : ℚ) * ((nx - tx) / 100) = nx
      push_cast
      ring
    · show ty + ((100 : Nat) : ℚ) * ((ny - ty) / 100) = ny
      push_cast
      ring

/-- Witness for `animation_reaches_target`: the fresh tile at `(5, 7)`
animated toward `(100, 0)`. -/
theorem animation_reaches_target_witness :
    ((Tile.new 5 7 'A').dragging = false ∧
      (Tile.new 5 7 'A').animation_progress = 0 ∧
      (Tile.new 5 7 'A').x_animation_step = none ∧
      (Tile.new 5 7 'A').y_animation_step = none) ∧
    (ANIMATION_STEPS = 100 ∧
      ((fun u => animate_tile 0 100 u)^[100] (Tile.new 5 7 'A')).x = 100 ∧
      ((fun u => animate_tile 0 100 u)^[100] (Tile.new 5 7 'A')).y = 0) :=
  ⟨⟨rfl, rfl, rfl, rfl⟩,
    animation_reaches_target (Tile.new 5 7 'A') 100 0 rfl rfl rfl rfl⟩

end TileRackDemo
